import Mathlib

/-!
Verification of the coffee-recommendation core (`coffee_tools.py`) of the
Playmcp Specialty Bot repository.

The Python source is shallowly embedded: the catalog is a `List CoffeeRecord`,
pandas numeric coercion becomes `to_numeric_coerced`, substring tests on
descriptions become `pyIn` (Python's `in` operator on strings), and the return
value of `get_coffee_recommendations` — which is either a tagged dict or a
plain Python string — becomes the inductive `PyResult`.

Pandas `sort_values(ascending=False)` (used for the per-country top-2 pick and
the mean-rating country ranking) computes an ascending argsort and then
reverses the whole index permutation; for the small groups arising here the
underlying numpy argsort is a stable insertion sort, so tied elements appear
in reverse original order.  The embedding models this as a stable ascending
insertion sort followed by `List.reverse`.  `groupby` sorts its keys in
ascending lexicographic order, which the embedding mirrors on country names.
-/

/-- Python's `sub in s` prefix test on explicit character lists. -/
def isPrefixL : List Char → List Char → Bool
  | [], _ => true
  | _ :: _, [] => false
  | a :: as, b :: bs => a == b && isPrefixL as bs

/-- Substring containment on character lists: `containsL hay pat` is true iff
`pat` occurs contiguously inside `hay` (the empty pattern always occurs). -/
def containsL (hay pat : List Char) : Bool :=
  match hay with
  | [] => isPrefixL pat []
  | _ :: rest => isPrefixL pat hay || containsL rest pat

/-- Python's `sub in s` on strings. -/
def pyIn (sub s : String) : Bool := containsL s.data sub.data

/-- Python's `str.lower()` (ASCII case folding suffices for the data and
keyword sets of this repository; Korean text is uncased). -/
def strLower (s : String) : String := ⟨s.data.map Char.toLower⟩

/-- The fixed ordered canonical country list `MAJOR_COUNTRIES` of the source. -/
def MAJOR_COUNTRIES : List String :=
  ["Ethiopia", "Kenya", "Colombia", "Brazil", "Panama", "Guatemala",
   "Costa Rica", "Indonesia", "Honduras", "El Salvador", "Peru", "Rwanda",
   "Mexico", "Uganda", "Tanzania", "Nicaragua", "Yemen", "Sumatra", "India", "Vietnam"]

/-- `extract_country` of the source.  A pandas cell that is not a string
(e.g. NaN) is modelled by `none`; a string cell by `some s`. -/
def extract_country (origin_text : Option String) : String :=
  match origin_text with
  | none => "Other"
  | some s =>
    match MAJOR_COUNTRIES.find? (fun c => pyIn (strLower c) (strLower s)) with
    | some c => c
    | none => "Other"

/-- One raw cell of a numeric column of the source CSV, as seen by
`pd.to_numeric(..., errors=...)`: a value that parses to the rational `q`,
an unparseable text, or a missing value (NaN). -/
inductive RawCell where
  | missing : RawCell
  | num : Rat → RawCell
  | badText : String → RawCell
deriving DecidableEq

/-- `pd.to_numeric(col, errors=...).fillna(0)` on one cell: parseable values
survive, unparseable and missing values become 0. -/
def to_numeric_coerced : RawCell → Rat
  | .missing => 0
  | .num q => q
  | .badText _ => 0

/-- One raw CSV row before the coercions of `load_data_once`. -/
structure RawRow where
  name : String
  origin : Option String
  desc_1 : Option String
  acid : RawCell
  body : RawCell
  flavor : RawCell
  aftertaste : RawCell
  aroma : RawCell
  rating : RawCell
deriving DecidableEq

/-- One in-memory catalog record after `load_data_once`: description filled
with the empty string, the six numeric columns coerced, and `country`
derived from `origin` by `extract_country`. -/
structure CoffeeRecord where
  name : String
  country : String
  desc_1 : String
  acid : Rat
  body : Rat
  flavor : Rat
  aftertaste : Rat
  aroma : Rat
  rating : Rat
deriving DecidableEq

/-- The per-row part of `load_data_once`. -/
def loadRecord (row : RawRow) : CoffeeRecord :=
  { name := row.name
    country := extract_country row.origin
    desc_1 := (row.desc_1).getD ""
    acid := to_numeric_coerced row.acid
    body := to_numeric_coerced row.body
    flavor := to_numeric_coerced row.flavor
    aftertaste := to_numeric_coerced row.aftertaste
    aroma := to_numeric_coerced row.aroma
    rating := to_numeric_coerced row.rating }

/-- One coffee dict of the `recommendation` result. -/
structure CoffeeOut where
  name : String
  rating : Rat
  desc : String
  aroma : Rat
  acid : Rat
  body : Rat
  flavor : Rat
  aftertaste : Rat
deriving DecidableEq

/-- One `{country_name, coffees}` group of the `recommendation` result. -/
structure CountryGroup where
  country_name : String
  coffees : List CoffeeOut
deriving DecidableEq

/-- The Python return value of `get_coffee_recommendations`: a tagged dict
with type info, error or recommendation, or a plain untagged string. -/
inductive PyResult where
  | dictInfo : String → PyResult
  | dictError : String → PyResult
  | dictRecommendation : String → List CountryGroup → PyResult
  | str : String → PyResult
deriving DecidableEq

/-- Whether a `PyResult` is one of the tagged dict shapes. -/
def isTagged : PyResult → Bool
  | .str _ => false
  | _ => true

/-- The static criteria text of `get_criteria_info`. -/
def get_criteria_info : String :=
  "### 🔍 커피 추천 로직 및 분류 기준\n\n" ++
  "**1. 산미 (Acidic)**\n" ++
  "- **과일 계열 (Fruity)**: 산미 점수 9점 이상 + (Berry, Citrus, Fruit 키워드)\n" ++
  "- **꽃향 계열 (Floral)**: 산미 점수 9점 이상 + (Floral, Jasmine, Rose 키워드)\n" ++
  "- 🚫 제외: 흙내(Earthy), 담배(Tobacco) 등 텁텁한 표현\n" ++
  "- 🏳️ 추천 국가: 에티오피아, 파나마, 케냐\n\n" ++
  "**2. 고소한 맛 (Nutty)**\n" ++
  "- **조건**: 산미 점수 8점 이하\n" ++
  "- 🚫 제외: 시큼함(Tart), 와인(Wine), 톡 쏘는 산미(Bright/Citrus)\n" ++
  "- 🏳️ 추천 국가: 브라질, 콜롬비아, 과테말라, 인도네시아\n\n" ++
  "※ 위 조건을 만족하는 그룹 내에서 **평점(Rating)**이 높은 순서대로 추천합니다."

/-- The `check_keywords` list of the meta-question fail-safe. -/
def check_keywords : List String :=
  ["기준", "어떻게", "원리", "알려줘", "설명", "로직", "분류"]

/-- The fail-safe condition: some check keyword occurs in the raw input and
the input is shorter than 15 characters. -/
def isMetaQuestion (preference : String) : Bool :=
  check_keywords.any (fun w => pyIn w preference) && preference.length < 15

/-- Error string returned when the data file cannot be loaded. -/
def dataUnavailableMsg : String := "Error: 데이터 파일을 찾을 수 없습니다."

/-- Error content of the classification-failure outcome. -/
def guidanceText : String :=
  "죄송합니다. \x27고소한 맛\x27, \x27과일 같은 산미\x27, \x27꽃향기\x27 등으로 질문해 주세요.\n(궁금하시다면 \x27추천 기준\x27이라고 물어봐 주세요.)"

/-- Plain string returned when filtering leaves no records. -/
def noMatchMsg : String := "조건에 맞는 커피를 찾을 수 없습니다."

/-- The acidic supergroup trigger words. -/
def acidicTriggers : List String :=
  ["산미", "신맛", "상큼", "과일", "화사", "꽃", "플로럴", "향기", "floral", "베리", "시트러스", "fruit"]

/-- The floral sub-branch trigger words. -/
def floralTriggers : List String := ["꽃", "플로럴", "자스민", "향기", "floral"]

/-- The fruity sub-branch trigger words. -/
def fruityTriggers : List String := ["과일", "베리", "시트러스", "레몬", "사과", "fruit"]

/-- The nutty supergroup trigger words. -/
def nuttyTriggers : List String := ["고소", "견과", "구수", "묵직", "초콜릿", "바디", "쓴맛"]

/-- A classification result: filter and ranking parameters of one branch of
the preference analysis.  `nutty = true` selects the `acid <= 8.0` predicate,
otherwise `acid >= 9.0` applies. -/
structure Category where
  target_type : String
  nutty : Bool
  keywords : List String
  exclude_keywords : List String
  priority_countries : List String
  flavor_desc : String
deriving DecidableEq

/-- The floral branch parameters. -/
def floralCategory : Category :=
  { target_type := "floral"
    nutty := false
    keywords := ["floral", "jasmine", "rose", "lily", "blossom", "lavender", "tea-like", "lemongrass", "magnolia", "hibiscus"]
    exclude_keywords := ["earthy", "tobacco", "smoke", "ash", "leather", "musty", "rubber"]
    priority_countries := ["Ethiopia", "Panama", "Kenya"]
    flavor_desc := "은은한 꽃향기와 화사한 산미 (Floral & High Acid)" }

/-- The fruity branch parameters. -/
def fruityCategory : Category :=
  { target_type := "fruity"
    nutty := false
    keywords := ["fruit", "berry", "citrus", "lemon", "orange", "apple", "grape", "peach", "stone fruit", "tropical"]
    exclude_keywords := ["earthy", "tobacco", "smoke", "ash", "leather", "musty", "rubber"]
    priority_countries := ["Ethiopia", "Panama", "Kenya"]
    flavor_desc := "상큼 달콤한 과일의 풍미 (Fruity & High Acid)" }

/-- The general-acidic branch parameters. -/
def generalAcidicCategory : Category :=
  { target_type := "general_acidic"
    nutty := false
    keywords := ["acid", "fruit", "floral", "bright"]
    exclude_keywords := ["earthy", "tobacco", "smoke", "ash", "leather", "musty", "rubber"]
    priority_countries := ["Ethiopia", "Panama", "Kenya"]
    flavor_desc := "화사한 산미와 과일향 (High Acid, No Earthy)" }

/-- The nutty branch parameters. -/
def nuttyCategory : Category :=
  { target_type := "nutty"
    nutty := true
    keywords := ["nut", "chocolate", "cocoa", "almond", "walnut", "savory", "caramel", "toffee", "body"]
    exclude_keywords := ["bright", "tart", "citrus", "lemon", "lime", "grapefruit", "wine", "sour", "vinegar"]
    priority_countries := ["Brazil", "Colombia", "Guatemala", "Indonesia", "India"]
    flavor_desc := "고소하고 묵직한 바디감 (Low Acid, No Citrus)" }

/-- The preference analysis of `get_coffee_recommendations`: the cascade of
trigger-set membership tests over the lowercased input, `none` when neither
supergroup triggers. -/
def classify (preference : String) : Option Category :=
  let pl := strLower preference
  if acidicTriggers.any (fun w => pyIn w pl) then
    if floralTriggers.any (fun w => pyIn w pl) then some floralCategory
    else if fruityTriggers.any (fun w => pyIn w pl) then some fruityCategory
    else some generalAcidicCategory
  else if nuttyTriggers.any (fun w => pyIn w pl) then some nuttyCategory
  else none

/-- Stable ascending insertion into a list already sorted by `lt`: the new
element goes after every element it is not strictly below. -/
def insByB {α : Type} (lt : α → α → Bool) (a : α) : List α → List α
  | [] => [a]
  | b :: bs => if lt a b then a :: b :: bs else b :: insByB lt a bs

/-- Stable ascending insertion sort, processing the list left to right, so
elements comparing equal keep their original relative order. -/
def sortAscByB {α : Type} (lt : α → α → Bool) (l : List α) : List α :=
  l.foldl (fun acc a => insByB lt a acc) []

/-- `sort_values(by=rating, ascending=False)` of pandas: ascending stable
argsort, then the whole permutation reversed — ties end up in reverse
original order. -/
def sort_values_rating_desc (l : List CoffeeRecord) : List CoffeeRecord :=
  (sortAscByB (fun a b => decide (a.rating < b.rating)) l).reverse

/-- The acid predicate of a category: `acid <= 8.0` for the nutty branch,
`acid >= 9.0` for the acidic branches. -/
def acidPred (cat : Category) (r : CoffeeRecord) : Bool :=
  if cat.nutty then decide (r.acid ≤ 8) else decide (9 ≤ r.acid)

/-- `df[df.acid >= 9.0]` resp. `df[df.acid <= 8.0]`. -/
def acidFilter (cat : Category) (df : List CoffeeRecord) : List CoffeeRecord :=
  df.filter (acidPred cat)

/-- `df.desc_1.str.contains(pattern, case=False)` for an alternation of the
given literal keywords: the description contains some keyword,
case-insensitively. -/
def descContainsAny (kws : List String) (desc : String) : Bool :=
  kws.any (fun k => pyIn (strLower k) (strLower desc))

/-- The exclusion step: drop records whose description contains an exclude
keyword (guarded, as in the source, by the keyword list being non-empty). -/
def excludeFilter (cat : Category) (df : List CoffeeRecord) : List CoffeeRecord :=
  if cat.exclude_keywords.isEmpty then df
  else df.filter (fun r => !(descContainsAny cat.exclude_keywords r.desc_1))

/-- The records of `df` whose description matches some include keyword. -/
def includeMatches (cat : Category) (df : List CoffeeRecord) : List CoffeeRecord :=
  df.filter (fun r => descContainsAny cat.keywords r.desc_1)

/-- The conditional include narrowing: keep only matching records when
strictly more than 5 match, otherwise leave `df` unchanged. -/
def includeNarrow (cat : Category) (df : List CoffeeRecord) : List CoffeeRecord :=
  if cat.keywords.isEmpty then df
  else if 5 < (includeMatches cat df).length then includeMatches cat df else df

/-- The filter pipeline in the fixed source order: acid predicate, then
exclusion, then conditional include narrowing. -/
def filterPipeline (cat : Category) (df : List CoffeeRecord) : List CoffeeRecord :=
  includeNarrow cat (excludeFilter cat (acidFilter cat df))

/-- The number of include-keyword matches evaluated by the narrowing step,
counted on the already acid- and exclusion-filtered set. -/
def includeMatchCount (cat : Category) (df : List CoffeeRecord) : Nat :=
  (includeMatches cat (excludeFilter cat (acidFilter cat df))).length

/-- First-occurrence deduplication, as `Series.unique` produces. -/
def uniqueAux (seen : List String) : List String → List String
  | [] => []
  | a :: as => if seen.contains a then uniqueAux seen as else a :: uniqueAux (a :: seen) as

/-- `df.country.unique()`: distinct countries in first-encounter order. -/
def uniqueCountries (df : List CoffeeRecord) : List String :=
  uniqueAux [] (df.map (fun r => r.country))

/-- The priority countries actually present among the filtered records, kept
in the category's priority order. -/
def presentPriorities (cat : Category) (df : List CoffeeRecord) : List String :=
  cat.priority_countries.filter (fun p => df.any (fun r => r.country == p))

/-- Mean rating of a record list (`groupby(country).rating.mean()` on one
group; groups are never empty in the source). -/
def meanRating (l : List CoffeeRecord) : Rat :=
  (l.map (fun r => r.rating)).sum / (l.length : Rat)

/-- `df.groupby(country).rating.mean()`: countries in ascending lexicographic
key order, each with its group's mean rating. -/
def countryMeans (df : List CoffeeRecord) : List (String × Rat) :=
  (sortAscByB (fun s t => decide (s < t)) (uniqueCountries df)).map
    (fun c => (c, meanRating (df.filter (fun r => r.country == c))))

/-- `country_ratings.sort_values(ascending=False).index`: the mean-rating
series sorted descending (stable ascending sort reversed), projected to its
country index. -/
def countryRatingIndex (df : List CoffeeRecord) : List String :=
  ((sortAscByB (fun a b => decide (a.2 < b.2)) (countryMeans df)).reverse).map
    (fun p => p.1)

/-- The fill loop over the descending mean-rating country index: skip
already-selected countries and the sentinel, append otherwise, and break as
soon as 3 countries are selected. -/
def fillLoop (selected : List String) : List String → List String
  | [] => selected
  | c :: cs =>
    if selected.contains c || c == "Other" then fillLoop selected cs
    else
      if 3 ≤ (selected ++ [c]).length then selected ++ [c]
      else fillLoop (selected ++ [c]) cs

/-- The country selection of the source: all present priority countries, then
— only when fewer than 3 were selected — the rating-based fill. -/
def selectCountries (cat : Category) (df : List CoffeeRecord) : List String :=
  let sel := presentPriorities cat df
  if sel.length < 3 then fillLoop sel (countryRatingIndex df) else sel

/-- The coffee dict built for one record of a selected country. -/
def toCoffeeOut (r : CoffeeRecord) : CoffeeOut :=
  { name := r.name
    rating := r.rating
    desc := r.desc_1
    aroma := r.aroma
    acid := r.acid
    body := r.body
    flavor := r.flavor
    aftertaste := r.aftertaste }

/-- `df[df.country == c].sort_values(by=rating, ascending=False).head(2)`. -/
def topCoffees (df : List CoffeeRecord) (c : String) : List CoffeeRecord :=
  (sort_values_rating_desc (df.filter (fun r => r.country == c))).take 2

/-- The `recommendation` result dict assembled from the filtered records. -/
def buildResult (cat : Category) (df : List CoffeeRecord) : PyResult :=
  .dictRecommendation cat.flavor_desc
    ((selectCountries cat df).map
      (fun c => { country_name := c, coffees := (topCoffees df c).map toCoffeeOut }))

/-- `get_coffee_recommendations` after the meta-question fail-safe: data
availability check, preference analysis, filter pipeline, empty check, and
result assembly.  The catalog argument models `load_data_once()`: `none`
when the data file is missing or unloadable. -/
def recommendCore (catalog : Option (List CoffeeRecord)) (preference : String) : PyResult :=
  match catalog with
  | none => .str dataUnavailableMsg
  | some df0 =>
    match classify preference with
    | none => .dictError guidanceText
    | some cat =>
      let df := filterPipeline cat df0
      if df.isEmpty then .str noMatchMsg
      else buildResult cat df

/-- The full `get_coffee_recommendations` entry point: the meta-question
fail-safe runs first, before the catalog is consulted. -/
def get_coffee_recommendations (catalog : Option (List CoffeeRecord)) (preference : String) : PyResult :=
  if isMetaQuestion preference then .dictInfo get_criteria_info
  else recommendCore catalog preference

/-- The country names of a `recommendation` result, `[]` for other shapes. -/
def countriesOf : PyResult → List String
  | .dictRecommendation _ cs => cs.map (fun g => g.country_name)
  | _ => []

/-- The per-group coffee name lists of a `recommendation` result. -/
def coffeeNamesOf : PyResult → List (List String)
  | .dictRecommendation _ cs => cs.map (fun g => g.coffees.map (fun c => c.name))
  | _ => []

section SortLemmas

variable {α : Type}

theorem insByB_perm (lt : α → α → Bool) (a : α) :
    ∀ l : List α, (insByB lt a l).Perm (a :: l) := by
  intro l
  induction l with
  | nil => simp [insByB]
  | cons b bs ih =>
    simp only [insByB]
    by_cases h : lt a b
    · rw [if_pos h]
    · rw [if_neg h]
      exact (ih.cons b).trans (List.Perm.swap a b bs)

theorem mem_insByB (lt : α → α → Bool) (a x : α) (l : List α)
    (hx : x ∈ insByB lt a l) : x = a ∨ x ∈ l := by
  have := (insByB_perm lt a l).mem_iff.mp hx
  simpa using this

theorem foldl_insByB_perm (lt : α → α → Bool) :
    ∀ (l acc : List α),
      (l.foldl (fun acc a => insByB lt a acc) acc).Perm (acc ++ l) := by
  intro l
  induction l with
  | nil => intro acc; simp
  | cons a as ih =>
    intro acc
    have h1 := ih (insByB lt a acc)
    have h2 : (insByB lt a acc ++ as).Perm ((a :: acc) ++ as) :=
      (insByB_perm lt a acc).append_right as
    have h3 : ((a :: acc) ++ as).Perm (acc ++ a :: as) := by
      simpa using List.perm_middle.symm
    exact (h1.trans h2).trans h3

theorem sortAscByB_perm (lt : α → α → Bool) (l : List α) :
    (sortAscByB lt l).Perm l := by
  simpa [sortAscByB] using foldl_insByB_perm lt l []

theorem insByB_pairwise (lt : α → α → Bool)
    (hasym : ∀ x y, lt x y = true → lt y x = false)
    (htr : ∀ x y z, lt x y = true → lt z y = false → lt z x = false)
    (a : α) :
    ∀ l : List α, l.Pairwise (fun x y => lt y x = false) →
      (insByB lt a l).Pairwise (fun x y => lt y x = false) := by
  intro l
  induction l with
  | nil => intro _; simp [insByB]
  | cons b bs ih =>
    intro hl
    rw [List.pairwise_cons] at hl
    obtain ⟨hb, hbs⟩ := hl
    simp only [insByB]
    by_cases h : lt a b
    · rw [if_pos h]
      refine List.Pairwise.cons ?_ (List.Pairwise.cons hb hbs)
      intro z hz
      rcases List.mem_cons.mp hz with hz | hz
      · subst hz; exact hasym _ _ h
      · exact htr a b z h (hb z hz)
    · rw [if_neg h]
      refine List.Pairwise.cons ?_ (ih hbs)
      intro z hz
      rcases mem_insByB lt a z bs hz with hz | hz
      · subst hz; exact Bool.eq_false_iff.mpr h
      · exact hb z hz

theorem sortAscByB_pairwise (lt : α → α → Bool)
    (hasym : ∀ x y, lt x y = true → lt y x = false)
    (htr : ∀ x y z, lt x y = true → lt z y = false → lt z x = false)
    (l : List α) :
    (sortAscByB lt l).Pairwise (fun x y => lt y x = false) := by
  suffices h : ∀ (l acc : List α), acc.Pairwise (fun x y => lt y x = false) →
      (l.foldl (fun acc a => insByB lt a acc) acc).Pairwise (fun x y => lt y x = false) by
    exact h l [] List.Pairwise.nil
  intro l
  induction l with
  | nil => intro acc hacc; simpa using hacc
  | cons a as ih =>
    intro acc hacc
    exact ih (insByB lt a acc) (insByB_pairwise lt hasym htr a acc hacc)

end SortLemmas

theorem fillLoop_eq_append (l : List String) :
    ∀ sel : List String, ∃ rest, fillLoop sel l = sel ++ rest := by
  induction l with
  | nil => intro sel; exact ⟨[], by simp [fillLoop]⟩
  | cons c cs ih =>
    intro sel
    simp only [fillLoop]
    by_cases h1 : (sel.contains c || c == "Other") = true
    · rw [if_pos h1]; exact ih sel
    · rw [if_neg h1]
      by_cases h2 : 3 ≤ (sel ++ [c]).length
      · rw [if_pos h2]; exact ⟨[c], rfl⟩
      · rw [if_neg h2]
        obtain ⟨r, hr⟩ := ih (sel ++ [c])
        exact ⟨[c] ++ r, by simp [hr]⟩

theorem fillLoop_length_le (l : List String) :
    ∀ sel : List String, sel.length < 3 → (fillLoop sel l).length ≤ 3 := by
  induction l with
  | nil => intro sel h; simp only [fillLoop]; omega
  | cons c cs ih =>
    intro sel h
    simp only [fillLoop]
    by_cases h1 : (sel.contains c || c == "Other") = true
    · rw [if_pos h1]; exact ih sel h
    · rw [if_neg h1]
      by_cases h2 : 3 ≤ (sel ++ [c]).length
      · rw [if_pos h2]; simp; omega
      · rw [if_neg h2]
        refine ih (sel ++ [c]) ?_
        simp at h2 ⊢; omega

theorem fillLoop_mem (l : List String) :
    ∀ (sel : List String) (x : String), x ∈ fillLoop sel l →
      x ∈ sel ∨ (x ∈ l ∧ x ≠ "Other") := by
  induction l with
  | nil => intro sel x hx; simp only [fillLoop] at hx; exact Or.inl hx
  | cons c cs ih =>
    intro sel x hx
    simp only [fillLoop] at hx
    by_cases h1 : (sel.contains c || c == "Other") = true
    · rw [if_pos h1] at hx
      rcases ih sel x hx with h | h
      · exact Or.inl h
      · exact Or.inr ⟨List.mem_cons_of_mem c h.1, h.2⟩
    · rw [if_neg h1] at hx
      have hcOther : c ≠ "Other" := by
        intro hco
        apply h1
        simp [hco]
      by_cases h2 : 3 ≤ (sel ++ [c]).length
      · rw [if_pos h2] at hx
        rcases List.mem_append.mp hx with h | h
        · exact Or.inl h
        · have : x = c := by simpa using h
          exact Or.inr ⟨this ▸ List.mem_cons_self c cs, this ▸ hcOther⟩
      · rw [if_neg h2] at hx
        rcases ih (sel ++ [c]) x hx with h | h
        · rcases List.mem_append.mp h with h | h
          · exact Or.inl h
          · have : x = c := by simpa using h
            exact Or.inr ⟨this ▸ List.mem_cons_self c cs, this ▸ hcOther⟩
        · exact Or.inr ⟨List.mem_cons_of_mem c h.1, h.2⟩

theorem uniqueAux_subset (l : List String) :
    ∀ (seen : List String) (x : String), x ∈ uniqueAux seen l → x ∈ l := by
  induction l with
  | nil => intro seen x hx; simp [uniqueAux] at hx
  | cons a as ih =>
    intro seen x hx
    simp only [uniqueAux] at hx
    by_cases h : seen.contains a = true
    · rw [if_pos h] at hx
      exact List.mem_cons_of_mem a (ih seen x hx)
    · rw [if_neg h] at hx
      rcases List.mem_cons.mp hx with h | h
      · exact h ▸ List.mem_cons_self a as
      · exact List.mem_cons_of_mem a (ih (a :: seen) x h)

theorem countryRatingIndex_mem (df : List CoffeeRecord) (x : String)
    (hx : x ∈ countryRatingIndex df) : ∃ r ∈ df, r.country = x := by
  unfold countryRatingIndex at hx
  obtain ⟨p, hp, hpx⟩ := List.mem_map.mp hx
  have hp2 : p ∈ countryMeans df :=
    ((sortAscByB_perm _ (countryMeans df)).mem_iff).mp (List.mem_reverse.mp hp)
  unfold countryMeans at hp2
  obtain ⟨c, hc, hcp⟩ := List.mem_map.mp hp2
  have hc2 : c ∈ uniqueCountries df :=
    ((sortAscByB_perm _ (uniqueCountries df)).mem_iff).mp hc
  have hc3 : c ∈ df.map (fun r => r.country) := uniqueAux_subset _ [] c hc2
  obtain ⟨r, hr, hrc⟩ := List.mem_map.mp hc3
  refine ⟨r, hr, ?_⟩
  have : p.1 = c := by rw [← hcp]
  rw [hrc, ← hpx, this]

theorem presentPriorities_subset (cat : Category) (df : List CoffeeRecord) (x : String)
    (hx : x ∈ presentPriorities cat df) : x ∈ cat.priority_countries :=
  (List.mem_filter.mp hx).1

theorem selectCountries_mem (cat : Category) (df : List CoffeeRecord) (x : String)
    (hx : x ∈ selectCountries cat df) :
    x ∈ presentPriorities cat df ∨ (x ∈ countryRatingIndex df ∧ x ≠ "Other") := by
  simp only [selectCountries] at hx
  by_cases h : (presentPriorities cat df).length < 3
  · rw [if_pos h] at hx
    exact fillLoop_mem _ _ _ hx
  · rw [if_neg h] at hx
    exact Or.inl hx

theorem excludeFilter_mem (cat : Category) (d : List CoffeeRecord) (r : CoffeeRecord) :
    r ∈ excludeFilter cat d ↔
      r ∈ d ∧ descContainsAny cat.exclude_keywords r.desc_1 = false := by
  unfold excludeFilter
  by_cases he : cat.exclude_keywords.isEmpty = true
  · have hnil : cat.exclude_keywords = [] := by
      cases hl : cat.exclude_keywords with
      | nil => rfl
      | cons a as => rw [hl] at he; simp at he
    rw [if_pos he, hnil]
    simp [descContainsAny]
  · rw [if_neg he]
    rw [List.mem_filter]
    simp

theorem includeMatches_mem (cat : Category) (d : List CoffeeRecord) (r : CoffeeRecord) :
    r ∈ includeMatches cat d ↔
      r ∈ d ∧ descContainsAny cat.keywords r.desc_1 = true := by
  unfold includeMatches
  rw [List.mem_filter]

theorem acidFilter_mem (cat : Category) (d : List CoffeeRecord) (r : CoffeeRecord) :
    r ∈ acidFilter cat d ↔ r ∈ d ∧ acidPred cat r = true := by
  unfold acidFilter
  rw [List.mem_filter]

theorem includeNarrow_subset (cat : Category) (d : List CoffeeRecord) (r : CoffeeRecord)
    (hr : r ∈ includeNarrow cat d) : r ∈ d := by
  unfold includeNarrow at hr
  by_cases h1 : cat.keywords.isEmpty = true
  · rwa [if_pos h1] at hr
  · rw [if_neg h1] at hr
    by_cases h2 : 5 < (includeMatches cat d).length
    · rw [if_pos h2] at hr
      exact ((includeMatches_mem cat d r).mp hr).1
    · rwa [if_neg h2] at hr

theorem filterPipeline_subset (cat : Category) (df : List CoffeeRecord) (r : CoffeeRecord)
    (hr : r ∈ filterPipeline cat df) : r ∈ df := by
  have h1 := includeNarrow_subset cat _ r hr
  have h2 := ((excludeFilter_mem cat _ r).mp h1).1
  exact ((acidFilter_mem cat df r).mp h2).1

theorem classify_cases (pref : String) (cat : Category)
    (h : classify pref = some cat) :
    cat = floralCategory ∨ cat = fruityCategory ∨
      cat = generalAcidicCategory ∨ cat = nuttyCategory := by
  unfold classify at h
  by_cases h1 : acidicTriggers.any (fun w => pyIn w (strLower pref)) = true
  · rw [if_pos h1] at h
    by_cases h2 : floralTriggers.any (fun w => pyIn w (strLower pref)) = true
    · rw [if_pos h2] at h
      exact Or.inl (Option.some_injective _ h).symm
    · rw [if_neg h2] at h
      by_cases h3 : fruityTriggers.any (fun w => pyIn w (strLower pref)) = true
      · rw [if_pos h3] at h
        exact Or.inr (Or.inl (Option.some_injective _ h).symm)
      · rw [if_neg h3] at h
        exact Or.inr (Or.inr (Or.inl (Option.some_injective _ h).symm))
  · rw [if_neg h1] at h
    by_cases h4 : nuttyTriggers.any (fun w => pyIn w (strLower pref)) = true
    · rw [if_pos h4] at h
      exact Or.inr (Or.inr (Or.inr (Option.some_injective _ h).symm))
    · rw [if_neg h4] at h
      exact absurd h (by simp)

theorem classify_priority_ok (pref : String) (cat : Category)
    (h : classify pref = some cat) :
    ∀ x ∈ cat.priority_countries, x ∈ MAJOR_COUNTRIES ∧ x ≠ "Other" := by
  rcases classify_cases pref cat h with h | h | h | h <;> subst h <;> decide

theorem find_first_aux {α : Type} (p : α → Bool) :
    ∀ (l : List α) (i : Nat) (h : i < l.length),
      p (l.get ⟨i, h⟩) = true →
      (∀ (j : Nat) (hj : j < i), p (l.get ⟨j, Nat.lt_trans hj h⟩) = false) →
      l.find? p = some (l.get ⟨i, h⟩) := by
  intro l
  induction l with
  | nil => intro i h; simp at h
  | cons a as ih =>
    intro i h hp hbefore
    cases i with
    | zero =>
      simp only [List.get] at hp
      rw [List.find?_cons_of_pos _ hp]
      rfl
    | succ n =>
      have ha : p a = false := by
        have := hbefore 0 (Nat.succ_pos n)
        simpa using this
      rw [List.find?_cons_of_neg _ (by simp [ha])]
      have hn : n < as.length := Nat.lt_of_succ_lt_succ h
      refine ih n hn ?_ ?_
      · simpa using hp
      · intro j hj
        have := hbefore (j + 1) (Nat.succ_lt_succ hj)
        simpa using this

theorem ratingLt_asym : ∀ x y : CoffeeRecord, decide (x.rating < y.rating) = true →
    decide (y.rating < x.rating) = false := by
  intro x y h
  simp only [decide_eq_true_eq] at h
  simp only [decide_eq_false_iff_not, not_lt]
  exact le_of_lt h

theorem ratingLt_trans : ∀ x y z : CoffeeRecord, decide (x.rating < y.rating) = true →
    decide (z.rating < y.rating) = false → decide (z.rating < x.rating) = false := by
  intro x y z h1 h2
  simp only [decide_eq_true_eq] at h1
  simp only [decide_eq_false_iff_not, not_lt] at h2 ⊢
  exact le_trans (le_of_lt h1) h2

theorem insByB_rating_filter_ne (q : Rat) (a : CoffeeRecord)
    (ha : (a.rating == q) = false) :
    ∀ l : List CoffeeRecord,
      (insByB (fun x y => decide (x.rating < y.rating)) a l).filter
        (fun r => r.rating == q) = l.filter (fun r => r.rating == q) := by
  intro l
  induction l with
  | nil => simp [insByB, ha]
  | cons b bs ih =>
    simp only [insByB]
    by_cases h : decide (a.rating < b.rating) = true
    · rw [if_pos h]
      simp [List.filter_cons, ha]
    · rw [if_neg h]
      simp [List.filter_cons, ih]

theorem insByB_rating_filter_eq (q : Rat) (a : CoffeeRecord)
    (ha : (a.rating == q) = true) :
    ∀ l : List CoffeeRecord,
      l.Pairwise (fun x y => decide (y.rating < x.rating) = false) →
      (insByB (fun x y => decide (x.rating < y.rating)) a l).filter
        (fun r => r.rating == q) =
        l.filter (fun r => r.rating == q) ++ [a] := by
  intro l
  induction l with
  | nil => intro _; simp [insByB, ha]
  | cons b bs ih =>
    intro hl
    rw [List.pairwise_cons] at hl
    obtain ⟨hb, hbs⟩ := hl
    have haq : a.rating = q := by simpa using ha
    simp only [insByB]
    by_cases h : decide (a.rating < b.rating) = true
    · rw [if_pos h]
      have hblt : q < b.rating := by
        have h2 := of_decide_eq_true h
        rwa [haq] at h2
      have hnil : (b :: bs).filter (fun r => r.rating == q) = [] := by
        rw [List.filter_eq_nil_iff]
        intro z hz
        rcases List.mem_cons.mp hz with he | hz2
        · subst he
          simp only [beq_iff_eq]
          intro heq
          rw [heq] at hblt
          exact lt_irrefl q hblt
        · have h1 : b.rating ≤ z.rating := by
            have := hb z hz2
            simpa [not_lt] using this
          simp only [beq_iff_eq]
          intro heq
          rw [heq] at h1
          exact absurd hblt (not_lt.mpr h1)
      rw [hnil, List.filter_cons, hnil]
      simp [ha]
    · rw [if_neg h]
      by_cases hpb : (b.rating == q) = true
      · simp [List.filter_cons, hpb, ih hbs]
      · simp [List.filter_cons, hpb, ih hbs]

theorem sortAscByB_rating_filter (q : Rat) :
    ∀ (l acc : List CoffeeRecord),
      acc.Pairwise (fun x y => decide (y.rating < x.rating) = false) →
      ((l.foldl (fun acc a => insByB (fun x y => decide (x.rating < y.rating)) a acc)
          acc).filter (fun r => r.rating == q)) =
        acc.filter (fun r => r.rating == q) ++ l.filter (fun r => r.rating == q) := by
  intro l
  induction l with
  | nil => intro acc _; simp
  | cons a as ih =>
    intro acc hacc
    have hacc2 := insByB_pairwise (fun (x y : CoffeeRecord) => decide (x.rating < y.rating))
      ratingLt_asym ratingLt_trans a acc hacc
    rw [List.foldl_cons,
      ih (insByB (fun x y => decide (x.rating < y.rating)) a acc) hacc2]
    by_cases hpa : (a.rating == q) = true
    · rw [insByB_rating_filter_eq q a hpa acc hacc]
      rw [List.filter_cons, if_pos hpa]
      simp
    · have hpa2 : (a.rating == q) = false := by simpa using hpa
      rw [insByB_rating_filter_ne q a hpa2 acc]
      rw [List.filter_cons, if_neg (by simp [hpa2])]

theorem sort_values_rating_desc_filter (l : List CoffeeRecord) (q : Rat) :
    (sort_values_rating_desc l).filter (fun r => r.rating == q) =
      (l.filter (fun r => r.rating == q)).reverse := by
  have h1 : (sortAscByB (fun (x y : CoffeeRecord) => decide (x.rating < y.rating)) l).filter
      (fun r => r.rating == q) = l.filter (fun r => r.rating == q) := by
    have h2 := sortAscByB_rating_filter q l [] List.Pairwise.nil
    simpa [sortAscByB] using h2
  unfold sort_values_rating_desc
  rw [List.filter_reverse, h1]

theorem fillLoop_spec (l : List String) :
    ∀ sel : List String, ∃ rest : List String,
      fillLoop sel l = sel ++ rest ∧
      rest.Sublist l ∧
      rest.Nodup ∧
      (∀ x ∈ rest, x ∉ sel ∧ x ≠ "Other") ∧
      (sel.length < 3 →
        ((sel ++ rest).length = 3 ∨ ∀ c ∈ l, c ∈ sel ++ rest ∨ c = "Other")) := by
  induction l with
  | nil =>
    intro sel
    refine ⟨[], by simp [fillLoop], List.nil_sublist [], List.nodup_nil, by simp, ?_⟩
    intro _
    exact Or.inr (fun c hc => absurd hc (List.not_mem_nil c))
  | cons c cs ih =>
    intro sel
    by_cases h1 : (sel.contains c || c == "Other") = true
    · obtain ⟨rest, ha, hb, hc2, hd, he⟩ := ih sel
      refine ⟨rest, ?_, hb.cons c, hc2, hd, ?_⟩
      · simp only [fillLoop]
        rw [if_pos h1]
        exact ha
      · intro hlen
        rcases he hlen with he2 | he2
        · exact Or.inl he2
        · refine Or.inr ?_
          intro d hd2
          rcases List.mem_cons.mp hd2 with he3 | hd3
          · subst he3
            rcases Bool.or_eq_true_iff.mp h1 with hx | hx
            · exact Or.inl (List.mem_append_left rest (List.elem_iff.mp hx))
            · exact Or.inr (by simpa using hx)
          · exact he2 d hd3
    · have hnotin : c ∉ sel := by
        intro hmem
        apply h1
        rw [Bool.or_eq_true]
        exact Or.inl (List.elem_iff.mpr hmem)
      have hcoth : c ≠ "Other" := by
        intro he
        apply h1
        rw [Bool.or_eq_true]
        exact Or.inr (by simp [he])
      by_cases h2 : 3 ≤ (sel ++ [c]).length
      · refine ⟨[c], ?_, ?_, List.nodup_singleton c, ?_, ?_⟩
        · simp only [fillLoop]
          rw [if_neg h1, if_pos h2]
        · exact (List.nil_sublist cs).cons₂ c
        · intro x hx
          have hxc := List.mem_singleton.mp hx
          subst hxc
          exact ⟨hnotin, hcoth⟩
        · intro hlen
          left
          have h3 : (sel ++ [c]).length = sel.length + 1 := by simp
          omega
      · obtain ⟨rest, ha, hb, hc2, hd, he⟩ := ih (sel ++ [c])
        have hlen2 : (sel ++ [c]).length < 3 := Nat.lt_of_not_le h2
        have hassoc : (sel ++ [c]) ++ rest = sel ++ c :: rest := by
          rw [List.append_assoc, List.singleton_append]
        refine ⟨c :: rest, ?_, hb.cons₂ c, ?_, ?_, ?_⟩
        · simp only [fillLoop]
          rw [if_neg h1, if_neg h2, ha, hassoc]
        · rw [List.nodup_cons]
          refine ⟨?_, hc2⟩
          intro hcr
          exact (hd c hcr).1 (List.mem_append_right sel (by simp))
        · intro x hx
          rcases List.mem_cons.mp hx with he3 | hx2
          · subst he3
            exact ⟨hnotin, hcoth⟩
          · have h4 := hd x hx2
            exact ⟨fun hxs => h4.1 (List.mem_append_left [c] hxs), h4.2⟩
        · intro hlen
          rcases he hlen2 with he2 | he2
          · left
            rw [← hassoc]
            exact he2
          · refine Or.inr ?_
            intro d hd2
            rcases List.mem_cons.mp hd2 with he3 | hd3
            · subst he3
              exact Or.inl (List.mem_append_right sel (List.mem_cons_self _ _))
            · rcases he2 d hd3 with h5 | h5
              · refine Or.inl ?_
                rw [← hassoc]
                exact h5
              · exact Or.inr h5

/-- The mean rating of one country group, as the ranking computes it. -/
def countryMeanOf (df : List CoffeeRecord) (c : String) : Rat :=
  meanRating (df.filter (fun r => r.country == c))

theorem countryMeans_snd (df : List CoffeeRecord) (p : String × Rat)
    (hp : p ∈ countryMeans df) : p.2 = countryMeanOf df p.1 := by
  unfold countryMeans at hp
  obtain ⟨c, _, hcp⟩ := List.mem_map.mp hp
  rw [← hcp]
  rfl

theorem pairLt_asym : ∀ x y : String × Rat, decide (x.2 < y.2) = true →
    decide (y.2 < x.2) = false := by
  intro x y h
  simp only [decide_eq_true_eq] at h
  simp only [decide_eq_false_iff_not, not_lt]
  exact le_of_lt h

theorem pairLt_trans : ∀ x y z : String × Rat, decide (x.2 < y.2) = true →
    decide (z.2 < y.2) = false → decide (z.2 < x.2) = false := by
  intro x y z h1 h2
  simp only [decide_eq_true_eq] at h1
  simp only [decide_eq_false_iff_not, not_lt] at h2 ⊢
  exact le_trans (le_of_lt h1) h2

theorem countryRatingIndex_sorted (df : List CoffeeRecord) :
    (countryRatingIndex df).Pairwise
      (fun c1 c2 => countryMeanOf df c2 ≤ countryMeanOf df c1) := by
  unfold countryRatingIndex
  rw [List.pairwise_map]
  have hs := sortAscByB_pairwise (fun (x y : String × Rat) => decide (x.2 < y.2))
    pairLt_asym pairLt_trans (countryMeans df)
  have hrev : ((sortAscByB (fun (x y : String × Rat) => decide (x.2 < y.2))
      (countryMeans df)).reverse).Pairwise
      (fun x y => decide (x.2 < y.2) = false) := by
    rw [List.pairwise_reverse]
    exact hs
  refine List.Pairwise.imp_of_mem ?_ hrev
  intro p r hp hr hpr
  have hp2 : p.2 = countryMeanOf df p.1 :=
    countryMeans_snd df p
      ((sortAscByB_perm _ (countryMeans df)).mem_iff.mp (List.mem_reverse.mp hp))
  have hr2 : r.2 = countryMeanOf df r.1 :=
    countryMeans_snd df r
      ((sortAscByB_perm _ (countryMeans df)).mem_iff.mp (List.mem_reverse.mp hr))
  rw [← hp2, ← hr2]
  exact le_of_not_lt (of_decide_eq_false hpr)


/-- Demo catalog for the filter pipeline: one record hit by an exclude term,
three include matches (not more than 5), one neutral record, one record
failing the acid predicate. -/
def pipelineDemoDf : List CoffeeRecord :=
  [{ name := "Tart One", country := "Brazil", desc_1 := "tart and bright", acid := 5,
     body := 8, flavor := 8, aftertaste := 8, aroma := 8, rating := 95 },
   { name := "Nut A", country := "Brazil", desc_1 := "nutty finish", acid := 5,
     body := 8, flavor := 8, aftertaste := 8, aroma := 8, rating := 90 },
   { name := "Nut B", country := "Colombia", desc_1 := "nutty finish", acid := 5,
     body := 8, flavor := 8, aftertaste := 8, aroma := 8, rating := 89 },
   { name := "Nut C", country := "Guatemala", desc_1 := "nutty finish", acid := 5,
     body := 8, flavor := 8, aftertaste := 8, aroma := 8, rating := 88 },
   { name := "Plain One", country := "Peru", desc_1 := "plain cup", acid := 5,
     body := 8, flavor := 8, aftertaste := 8, aroma := 8, rating := 87 },
   { name := "Acidic One", country := "Kenya", desc_1 := "nutty finish", acid := 9,
     body := 8, flavor := 8, aftertaste := 8, aroma := 8, rating := 94 }]

/-- C1: the filter pipeline applies its steps in fixed order — acid predicate
first, then exclusion, then conditional include narrowing.  With at most 5
include matches on the already acid- and exclusion-filtered set the pipeline
output equals that set (include terms change nothing); with strictly more
than 5 matches it is exactly the matching records of that set; and records
hit by an exclude term are absent from the output in every case. -/
theorem C1_filter_pipeline_order (cat : Category) (df : List CoffeeRecord)
    (hk : cat.keywords.isEmpty = false) :
    (includeMatchCount cat df ≤ 5 →
      filterPipeline cat df = excludeFilter cat (acidFilter cat df)) ∧
    (5 < includeMatchCount cat df →
      ∀ r : CoffeeRecord, r ∈ filterPipeline cat df ↔
        (r ∈ df ∧ acidPred cat r = true ∧
          descContainsAny cat.exclude_keywords r.desc_1 = false ∧
          descContainsAny cat.keywords r.desc_1 = true)) ∧
    (∀ r ∈ filterPipeline cat df,
      descContainsAny cat.exclude_keywords r.desc_1 = false) := by
  refine ⟨?_, ?_, ?_⟩
  · intro h
    unfold includeMatchCount at h
    unfold filterPipeline includeNarrow
    rw [if_neg (by simp [hk]), if_neg (Nat.not_lt.mpr h)]
  · intro h r
    unfold includeMatchCount at h
    have hpipe : filterPipeline cat df =
        includeMatches cat (excludeFilter cat (acidFilter cat df)) := by
      unfold filterPipeline includeNarrow
      rw [if_neg (by simp [hk]), if_pos h]
    rw [hpipe, includeMatches_mem, excludeFilter_mem, acidFilter_mem]
    tauto
  · intro r hr
    exact ((excludeFilter_mem cat _ r).mp (includeNarrow_subset cat _ r hr)).2

/-- Witness for C1: at the nutty category and the demo catalog only 3 records
match include terms, so the pipeline output is the acid-and-exclusion
filtered set unchanged. -/
theorem C1_filter_pipeline_order_witness :
    filterPipeline nuttyCategory pipelineDemoDf =
      excludeFilter nuttyCategory (acidFilter nuttyCategory pipelineDemoDf) :=
  (C1_filter_pipeline_order nuttyCategory pipelineDemoDf (by decide)).1 (by decide)

/-- Catalog for which all five nutty priority countries are present among
the filtered records. -/
def nuttyAllPriorityDf : List CoffeeRecord :=
  [{ name := "n1", country := "Brazil", desc_1 := "plain", acid := 5, body := 8,
     flavor := 8, aftertaste := 8, aroma := 8, rating := 90 },
   { name := "n2", country := "Colombia", desc_1 := "plain", acid := 5, body := 8,
     flavor := 8, aftertaste := 8, aroma := 8, rating := 90 },
   { name := "n3", country := "Guatemala", desc_1 := "plain", acid := 5, body := 8,
     flavor := 8, aftertaste := 8, aroma := 8, rating := 90 },
   { name := "n4", country := "Indonesia", desc_1 := "plain", acid := 5, body := 8,
     flavor := 8, aftertaste := 8, aroma := 8, rating := 90 },
   { name := "n5", country := "India", desc_1 := "plain", acid := 5, body := 8,
     flavor := 8, aftertaste := 8, aroma := 8, rating := 90 }]

/-- C2 counterexample: on the nutty input, with all five priority countries
of the nutty category present, the code selects 5 countries — the priority
step has no cap at 3 (only the fill step stops at 3). -/
theorem C2_at_most_three_cex :
    (countriesOf (get_coffee_recommendations (some nuttyAllPriorityDf) "고소한 맛")).length = 5 ∧
    ¬ (countriesOf (get_coffee_recommendations (some nuttyAllPriorityDf) "고소한 맛")).length ≤ 3 :=
  ⟨by decide, by decide⟩

/-- C2 amended: selection starts with all present priority countries in
priority order (possibly more than 3 for the nutty category, whose priority
list has 5 entries).  Only when fewer than 3 are selected does the
mean-rating fill run: the filled countries are taken, in order, from the
country ranking — which is pairwise sorted by descending mean rating — are
pairwise distinct, exclude every already-selected country and the sentinel,
and the loop stops exactly when 3 countries are selected or the ranking is
exhausted up to skipped candidates. -/
theorem C2_country_selection_amended (cat : Category) (df : List CoffeeRecord) :
    (3 ≤ (presentPriorities cat df).length →
      selectCountries cat df = presentPriorities cat df) ∧
    (countryRatingIndex df).Pairwise
      (fun c1 c2 => countryMeanOf df c2 ≤ countryMeanOf df c1) ∧
    ((presentPriorities cat df).length < 3 →
      ∃ rest : List String,
        selectCountries cat df = presentPriorities cat df ++ rest ∧
        rest.Sublist (countryRatingIndex df) ∧
        rest.Nodup ∧
        (∀ x ∈ rest, x ∉ presentPriorities cat df ∧ x ≠ "Other") ∧
        (selectCountries cat df).length ≤ 3 ∧
        ((selectCountries cat df).length = 3 ∨
          ∀ c ∈ countryRatingIndex df, c ∈ selectCountries cat df ∨ c = "Other")) ∧
    (∀ x ∈ selectCountries cat df,
      x ∈ presentPriorities cat df ∨ (x ∈ countryRatingIndex df ∧ x ≠ "Other")) := by
  refine ⟨?_, countryRatingIndex_sorted df, ?_, fun x hx => selectCountries_mem cat df x hx⟩
  · intro h
    simp only [selectCountries]
    rw [if_neg (Nat.not_lt.mpr h)]
  · intro h
    have hsel : selectCountries cat df =
        fillLoop (presentPriorities cat df) (countryRatingIndex df) := by
      simp only [selectCountries]
      rw [if_pos h]
    obtain ⟨rest, ha, hb, hc2, hd, he⟩ :=
      fillLoop_spec (countryRatingIndex df) (presentPriorities cat df)
    refine ⟨rest, ?_, hb, hc2, hd, ?_, ?_⟩
    · rw [hsel, ha]
    · rw [hsel]
      exact fillLoop_length_le _ _ h
    · rcases he h with h5 | h5
      · refine Or.inl ?_
        rw [hsel, ha]
        exact h5
      · refine Or.inr ?_
        intro d hd2
        rcases h5 d hd2 with h6 | h6
        · refine Or.inl ?_
          rw [hsel, ha]
          exact h6
        · exact Or.inr h6

/-- Witness for the amended C2: with 5 present priority countries the
selection is exactly the present-priority list. -/
theorem C2_country_selection_amended_witness :
    selectCountries nuttyCategory nuttyAllPriorityDf =
      presentPriorities nuttyCategory nuttyAllPriorityDf :=
  (C2_country_selection_amended nuttyCategory nuttyAllPriorityDf).1 (by decide)

/-- C3: an input containing a criteria trigger word and shorter than 15
characters returns the static criteria info outcome, while an input of
length at least 15 always proceeds to the classification path. -/
theorem C3_meta_question_failsafe (pref : String) (catalog : Option (List CoffeeRecord)) :
    (check_keywords.any (fun w => pyIn w pref) = true → pref.length < 15 →
      get_coffee_recommendations catalog pref = PyResult.dictInfo get_criteria_info) ∧
    (15 ≤ pref.length →
      get_coffee_recommendations catalog pref = recommendCore catalog pref) := by
  constructor
  · intro h1 h2
    have hm : isMetaQuestion pref = true := by
      unfold isMetaQuestion
      rw [h1]
      simp [h2]
    simp [get_coffee_recommendations, hm]
  · intro h
    have hm : isMetaQuestion pref = false := by
      unfold isMetaQuestion
      have hd : decide (pref.length < 15) = false := by
        simp [Nat.not_lt.mpr h]
      rw [hd, Bool.and_false]
    simp [get_coffee_recommendations, hm]

/-- Witness for C3: the short meta-question gets the info outcome; a
22-character sentence containing the same trigger words goes to the
classification path. -/
theorem C3_meta_question_failsafe_witness :
    get_coffee_recommendations (some []) "기준 알려줘" = PyResult.dictInfo get_criteria_info ∧
    get_coffee_recommendations (some []) "산미가 좋은 커피의 선정 기준을 자세히 알려줘" =
      recommendCore (some []) "산미가 좋은 커피의 선정 기준을 자세히 알려줘" :=
  ⟨(C3_meta_question_failsafe "기준 알려줘" (some [])).1 (by decide) (by decide),
   (C3_meta_question_failsafe "산미가 좋은 커피의 선정 기준을 자세히 알려줘" (some [])).2 (by decide)⟩

/-- C4: the country resolver returns "Other" for a non-string input and for
inputs containing no canonical country name (case-insensitively); otherwise
it returns the first canonical name, in list order, occurring in the
lowercased input; and it is deterministic. -/
theorem C4_extract_country_resolution :
    extract_country none = "Other" ∧
    (∀ s : String,
      (∀ c ∈ MAJOR_COUNTRIES, pyIn (strLower c) (strLower s) = false) →
      extract_country (some s) = "Other") ∧
    (∀ (s : String) (i : Nat) (h : i < MAJOR_COUNTRIES.length),
      pyIn (strLower (MAJOR_COUNTRIES.get ⟨i, h⟩)) (strLower s) = true →
      (∀ (j : Nat) (hj : j < i),
        pyIn (strLower (MAJOR_COUNTRIES.get ⟨j, Nat.lt_trans hj h⟩)) (strLower s) = false) →
      extract_country (some s) = MAJOR_COUNTRIES.get ⟨i, h⟩) ∧
    (∀ x y : Option String, x = y → extract_country x = extract_country y) := by
  refine ⟨rfl, ?_, ?_, fun x y h => h ▸ rfl⟩
  · intro s hs
    have hnone : MAJOR_COUNTRIES.find? (fun c => pyIn (strLower c) (strLower s)) = none :=
      List.find?_eq_none.mpr (fun c hc => by simp [hs c hc])
    show (match MAJOR_COUNTRIES.find? (fun c => pyIn (strLower c) (strLower s)) with
          | some c => c
          | none => "Other") = "Other"
    rw [hnone]
  · intro s i h hp hfirst
    have hfind := find_first_aux (fun c => pyIn (strLower c) (strLower s))
      MAJOR_COUNTRIES i h hp hfirst
    show (match MAJOR_COUNTRIES.find? (fun c => pyIn (strLower c) (strLower s)) with
          | some c => c
          | none => "Other") = MAJOR_COUNTRIES.get ⟨i, h⟩
    rw [hfind]

/-- Witness for C4: a free-text origin containing no canonical country name
resolves to the sentinel. -/
theorem C4_extract_country_resolution_witness :
    extract_country (some "single farm, washed process") = "Other" :=
  C4_extract_country_resolution.2.1 "single farm, washed process" (by decide)

/-- C5: when the fail-safe does not fire and the lowercased preference
matches neither the acidic nor the nutty trigger set, the call returns the
tagged error outcome with the guidance text.  The embedding is a total
function, so no exception can reach the caller. -/
theorem C5_classification_failure (df : List CoffeeRecord) (pref : String)
    (hmeta : isMetaQuestion pref = false)
    (hacid : acidicTriggers.any (fun w => pyIn w (strLower pref)) = false)
    (hnutty : nuttyTriggers.any (fun w => pyIn w (strLower pref)) = false) :
    get_coffee_recommendations (some df) pref = PyResult.dictError guidanceText := by
  have hc : classify pref = none := by
    simp only [classify]
    rw [hacid, hnutty]
    simp
  simp [get_coffee_recommendations, hmeta, recommendCore, hc]

/-- Witness for C5: an unclassifiable preference gets the guidance error. -/
theorem C5_classification_failure_witness :
    get_coffee_recommendations (some []) "맹물 같은 커피" = PyResult.dictError guidanceText :=
  C5_classification_failure [] "맹물 같은 커피" (by decide) (by decide) (by decide)

/-- One-record catalog whose only record fails the nutty acid predicate, so
the pipeline leaves an empty set. -/
def emptyFilterDf : List CoffeeRecord :=
  [{ name := "x", country := "Brazil", desc_1 := "plain", acid := 9, body := 8,
     flavor := 8, aftertaste := 8, aroma := 8, rating := 90 }]

/-- C6 counterexample: an empty set after filtering yields a plain untagged
Python string, not one of the three tagged outcomes the claim allows. -/
theorem C6_tagged_outcomes_cex :
    get_coffee_recommendations (some emptyFilterDf) "고소한 맛" = PyResult.str noMatchMsg ∧
    isTagged (get_coffee_recommendations (some emptyFilterDf) "고소한 맛") = false :=
  ⟨by decide, by decide⟩

/-- C6 amended: every result is a tagged info, a tagged error, a tagged
recommendation, or one of the two plain string messages (data unavailable,
no matching items); the empty-after-filter outcome is the plain no-match
string, which differs from the classification-failure error outcome. -/
theorem C6_outcome_shapes_amended (catalog : Option (List CoffeeRecord)) (pref : String) :
    (get_coffee_recommendations catalog pref = PyResult.dictInfo get_criteria_info ∨
     get_coffee_recommendations catalog pref = PyResult.dictError guidanceText ∨
     get_coffee_recommendations catalog pref = PyResult.str dataUnavailableMsg ∨
     get_coffee_recommendations catalog pref = PyResult.str noMatchMsg ∨
     ∃ fd cs, get_coffee_recommendations catalog pref = PyResult.dictRecommendation fd cs) ∧
    PyResult.str noMatchMsg ≠ PyResult.dictError guidanceText := by
  refine ⟨?_, fun h => PyResult.noConfusion h⟩
  unfold get_coffee_recommendations
  by_cases hm : isMetaQuestion pref = true
  · rw [if_pos hm]
    exact Or.inl rfl
  · rw [if_neg hm]
    unfold recommendCore
    cases catalog with
    | none => exact Or.inr (Or.inr (Or.inl rfl))
    | some df0 =>
      dsimp only
      cases hc : classify pref with
      | none => exact Or.inr (Or.inl rfl)
      | some cat =>
        dsimp only
        by_cases he : (filterPipeline cat df0).isEmpty = true
        · rw [if_pos he]
          exact Or.inr (Or.inr (Or.inr (Or.inl rfl)))
        · rw [if_neg he]
          exact Or.inr (Or.inr (Or.inr (Or.inr ⟨cat.flavor_desc, _, rfl⟩)))

/-- Whether a raw numeric cell is non-negative wherever it parses. -/
def cellNonneg (c : RawCell) : Bool :=
  match c with
  | RawCell.num q => decide (0 ≤ q)
  | _ => true

theorem to_numeric_coerced_eq_zero (c : RawCell)
    (h : c = RawCell.missing ∨ ∃ s, c = RawCell.badText s) :
    to_numeric_coerced c = 0 := by
  rcases h with h | ⟨s, h⟩ <;> subst h <;> rfl

theorem to_numeric_coerced_nonneg (c : RawCell) (h : cellNonneg c = true) :
    0 ≤ to_numeric_coerced c := by
  cases c with
  | missing => exact le_refl 0
  | num q => simpa [cellNonneg] using h
  | badText s => exact le_refl 0

/-- Row whose acid parses to a negative number: the loader keeps it. -/
def badNumericRow : RawRow :=
  { name := "Negative Acid", origin := some "Kenya AA", desc_1 := none,
    acid := RawCell.num (-1), body := RawCell.badText "n/a",
    flavor := RawCell.missing, aftertaste := RawCell.num 8,
    aroma := RawCell.num 8, rating := RawCell.num 90 }

/-- C7 counterexample: the loader performs no sign check, so a source value
parsing to -1 is loaded as the negative acid -1, refuting non-negativity
regardless of source content. -/
theorem C7_nonneg_cex :
    (loadRecord badNumericRow).acid = -1 ∧
    ¬ (0 ≤ (loadRecord badNumericRow).acid) :=
  ⟨rfl, by decide⟩

/-- C7 amended: after loading, all six numeric fields are present; a value
that cannot parse (or is missing) is coerced to 0 and a missing description
to the empty string; the fields are non-negative provided every parseable
source value is non-negative. -/
theorem C7_loader_coercion_amended (row : RawRow)
    (hnn : ∀ c ∈ [row.acid, row.body, row.flavor, row.aftertaste, row.aroma, row.rating],
      cellNonneg c = true) :
    (0 ≤ (loadRecord row).acid ∧ 0 ≤ (loadRecord row).body ∧
     0 ≤ (loadRecord row).flavor ∧ 0 ≤ (loadRecord row).aftertaste ∧
     0 ≤ (loadRecord row).aroma ∧ 0 ≤ (loadRecord row).rating) ∧
    ((row.acid = RawCell.missing ∨ ∃ s, row.acid = RawCell.badText s) →
      (loadRecord row).acid = 0) ∧
    ((row.body = RawCell.missing ∨ ∃ s, row.body = RawCell.badText s) →
      (loadRecord row).body = 0) ∧
    ((row.flavor = RawCell.missing ∨ ∃ s, row.flavor = RawCell.badText s) →
      (loadRecord row).flavor = 0) ∧
    ((row.aftertaste = RawCell.missing ∨ ∃ s, row.aftertaste = RawCell.badText s) →
      (loadRecord row).aftertaste = 0) ∧
    ((row.aroma = RawCell.missing ∨ ∃ s, row.aroma = RawCell.badText s) →
      (loadRecord row).aroma = 0) ∧
    ((row.rating = RawCell.missing ∨ ∃ s, row.rating = RawCell.badText s) →
      (loadRecord row).rating = 0) ∧
    (row.desc_1 = none → (loadRecord row).desc_1 = "") := by
  refine ⟨⟨?_, ?_, ?_, ?_, ?_, ?_⟩,
    fun h => to_numeric_coerced_eq_zero _ h, fun h => to_numeric_coerced_eq_zero _ h,
    fun h => to_numeric_coerced_eq_zero _ h, fun h => to_numeric_coerced_eq_zero _ h,
    fun h => to_numeric_coerced_eq_zero _ h, fun h => to_numeric_coerced_eq_zero _ h,
    fun h => by simp [loadRecord, h]⟩
  all_goals exact to_numeric_coerced_nonneg _ (hnn _ (by simp))

/-- Row with a malformed body cell, a missing flavor cell and a missing
description, all non-negative where parseable. -/
def partlyBadRow : RawRow :=
  { name := "Partly Bad", origin := some "Colombia Huila", desc_1 := none,
    acid := RawCell.num 9, body := RawCell.badText "oops",
    flavor := RawCell.missing, aftertaste := RawCell.num 8,
    aroma := RawCell.num 9, rating := RawCell.num 93 }

/-- Witness for the amended C7 at a concrete malformed row. -/
theorem C7_loader_coercion_amended_witness :
    0 ≤ (loadRecord partlyBadRow).acid :=
  (C7_loader_coercion_amended partlyBadRow (by decide)).1.1

/-- Three equally-rated records of one country, in catalog order A, B, C. -/
def tieBreakDf : List CoffeeRecord :=
  [{ name := "A", country := "Brazil", desc_1 := "plain", acid := 5, body := 8,
     flavor := 8, aftertaste := 8, aroma := 8, rating := 90 },
   { name := "B", country := "Brazil", desc_1 := "plain", acid := 5, body := 8,
     flavor := 8, aftertaste := 8, aroma := 8, rating := 90 },
   { name := "C", country := "Brazil", desc_1 := "plain", acid := 5, body := 8,
     flavor := 8, aftertaste := 8, aroma := 8, rating := 90 }]

/-- C8 counterexample: with three equally-rated Brazilian records A, B, C in
catalog order, the descending sort reverses the stable ascending order, so
the returned top 2 are C and B — not A and B as original-order tie-breaking
would require. -/
theorem C8_top2_tiebreak_cex :
    coffeeNamesOf (get_coffee_recommendations (some tieBreakDf) "고소한 맛") = [["C", "B"]] ∧
    ¬ (coffeeNamesOf (get_coffee_recommendations (some tieBreakDf) "고소한 맛") = [["A", "B"]]) :=
  ⟨by decide, by decide⟩

/-- C8 amended: for each selected country the outcome contains exactly the
top 2 qualifying records by descending rating (all of them if fewer than 2),
with ties broken by reverse original catalog order: the sorted list is a
permutation of the country group, pairwise descending in rating, and — the
tie-break itself — for every rating value the equally-rated records appear
in it exactly in reverse of their original catalog order, since the
descending sort is the reversal of a stable ascending sort.  Each returned
coffee carries the six numeric attributes plus name and description
unchanged. -/
theorem C8_top2_per_country_amended (cat : Category) (df : List CoffeeRecord) (c : String) :
    (sort_values_rating_desc (df.filter (fun r => r.country == c))).Perm
      (df.filter (fun r => r.country == c)) ∧
    (sort_values_rating_desc (df.filter (fun r => r.country == c))).Pairwise
      (fun a b => b.rating ≤ a.rating) ∧
    (∀ q : Rat,
      (sort_values_rating_desc (df.filter (fun r => r.country == c))).filter
        (fun r => r.rating == q) =
      ((df.filter (fun r => r.country == c)).filter (fun r => r.rating == q)).reverse) ∧
    topCoffees df c =
      (sort_values_rating_desc (df.filter (fun r => r.country == c))).take 2 ∧
    (topCoffees df c).length = min 2 (df.filter (fun r => r.country == c)).length ∧
    buildResult cat df = PyResult.dictRecommendation cat.flavor_desc
      ((selectCountries cat df).map
        (fun co => { country_name := co, coffees := (topCoffees df co).map toCoffeeOut })) ∧
    (∀ r : CoffeeRecord, toCoffeeOut r =
      { name := r.name, rating := r.rating, desc := r.desc_1, aroma := r.aroma,
        acid := r.acid, body := r.body, flavor := r.flavor, aftertaste := r.aftertaste }) := by
  have hperm : (sort_values_rating_desc (df.filter (fun r => r.country == c))).Perm
      (df.filter (fun r => r.country == c)) :=
    (List.reverse_perm _).trans
      (sortAscByB_perm (fun (a b : CoffeeRecord) => decide (a.rating < b.rating)) _)
  refine ⟨hperm, ?_, fun q => sort_values_rating_desc_filter _ q, rfl, ?_, rfl, fun r => rfl⟩
  · have hs := sortAscByB_pairwise (fun (a b : CoffeeRecord) => decide (a.rating < b.rating))
      ratingLt_asym ratingLt_trans (df.filter (fun r => r.country == c))
    show ((sortAscByB (fun (a b : CoffeeRecord) => decide (a.rating < b.rating))
        (df.filter (fun r => r.country == c))).reverse).Pairwise
        (fun a b => b.rating ≤ a.rating)
    rw [List.pairwise_reverse]
    refine hs.imp ?_
    intro a b h
    simp only [decide_eq_false_iff_not, not_lt] at h
    exact h
  · unfold topCoffees
    rw [List.length_take, hperm.length_eq]

/-- Catalog with a single Brazilian record for the nutty input. -/
def singleBrazilDf : List CoffeeRecord :=
  [{ name := "Mogiana", country := "Brazil", desc_1 := "plain", acid := 5, body := 8,
     flavor := 8, aftertaste := 8, aroma := 8, rating := 90 }]

/-- C9: whenever every catalog record's country is a major country or the
sentinel (the loader invariant), every country group of a recommendation
outcome names a member of MAJOR_COUNTRIES and never the sentinel "Other". -/
theorem C9_no_other_in_recommendation (df : List CoffeeRecord) (pref fd : String)
    (cs : List CountryGroup)
    (hctry : ∀ r ∈ df, r.country ∈ MAJOR_COUNTRIES ∨ r.country = "Other")
    (hres : get_coffee_recommendations (some df) pref = PyResult.dictRecommendation fd cs) :
    ∀ g ∈ cs, g.country_name ∈ MAJOR_COUNTRIES ∧ g.country_name ≠ "Other" := by
  unfold get_coffee_recommendations at hres
  by_cases hm : isMetaQuestion pref = true
  · rw [if_pos hm] at hres
    exact absurd hres (by simp)
  · rw [if_neg hm] at hres
    unfold recommendCore at hres
    cases hc : classify pref with
    | none =>
      rw [hc] at hres
      exact absurd hres (by simp)
    | some cat =>
      rw [hc] at hres
      dsimp only at hres
      by_cases he : (filterPipeline cat df).isEmpty = true
      · rw [if_pos he] at hres
        exact absurd hres (by simp)
      · rw [if_neg he] at hres
        unfold buildResult at hres
        injection hres with h1 h2
        subst h2
        intro g hg
        obtain ⟨x, hx, hgx⟩ := List.mem_map.mp hg
        have hgname : g.country_name = x := by rw [← hgx]
        rw [hgname]
        rcases selectCountries_mem cat (filterPipeline cat df) x hx with h | ⟨hidx, hother⟩
        · exact classify_priority_ok pref cat hc x (presentPriorities_subset cat _ x h)
        · obtain ⟨r, hr, hrx⟩ := countryRatingIndex_mem _ x hidx
          have hrdf : r ∈ df := filterPipeline_subset cat df r hr
          rcases hctry r hrdf with hmaj | hoth
          · exact ⟨hrx ▸ hmaj, hother⟩
          · exact absurd (hrx ▸ hoth) hother

/-- Witness for C9 at a one-record Brazilian catalog and the nutty input. -/
theorem C9_no_other_in_recommendation_witness :
    ({ country_name := "Brazil",
       coffees := [{ name := "Mogiana", rating := 90, desc := "plain", aroma := 8,
                     acid := 5, body := 8, flavor := 8, aftertaste := 8 }] } :
      CountryGroup).country_name ∈ MAJOR_COUNTRIES ∧
    ({ country_name := "Brazil",
       coffees := [{ name := "Mogiana", rating := 90, desc := "plain", aroma := 8,
                     acid := 5, body := 8, flavor := 8, aftertaste := 8 }] } :
      CountryGroup).country_name ≠ "Other" :=
  C9_no_other_in_recommendation singleBrazilDf "고소한 맛"
    "고소하고 묵직한 바디감 (Low Acid, No Citrus)"
    [{ country_name := "Brazil",
       coffees := [{ name := "Mogiana", rating := 90, desc := "plain", aroma := 8,
                     acid := 5, body := 8, flavor := 8, aftertaste := 8 }] }]
    (by decide) (by decide)
    { country_name := "Brazil",
      coffees := [{ name := "Mogiana", rating := 90, desc := "plain", aroma := 8,
                    acid := 5, body := 8, flavor := 8, aftertaste := 8 }] }
    (by decide)

/-- C10: the fail-safe runs before the catalog is consulted — a short input
with a trigger word returns the info outcome for every catalog state,
including an unloadable one — while any non-fail-safe input returns the
data-unavailable message when the catalog cannot be loaded. -/
theorem C10_failsafe_precedes_load (pref : String) :
    (check_keywords.any (fun w => pyIn w pref) = true → pref.length < 15 →
      ∀ catalog : Option (List CoffeeRecord),
        get_coffee_recommendations catalog pref = PyResult.dictInfo get_criteria_info) ∧
    (isMetaQuestion pref = false →
      get_coffee_recommendations none pref = PyResult.str dataUnavailableMsg) := by
  constructor
  · intro h1 h2 catalog
    have hm : isMetaQuestion pref = true := by
      unfold isMetaQuestion
      rw [h1]
      simp [h2]
    simp [get_coffee_recommendations, hm]
  · intro hm
    simp [get_coffee_recommendations, hm, recommendCore]

/-- Witness for C10: a short trigger input returns info with no catalog; a
non-trigger input hits the data-unavailable failure. -/
theorem C10_failsafe_precedes_load_witness :
    get_coffee_recommendations none "원리 설명" = PyResult.dictInfo get_criteria_info ∧
    get_coffee_recommendations none "고소한 원두" = PyResult.str dataUnavailableMsg :=
  ⟨(C10_failsafe_precedes_load "원리 설명").1 (by decide) (by decide) none,
   (C10_failsafe_precedes_load "고소한 원두").2 (by decide)⟩
